import Mathlib

/-!
# Verification of the SVM CLOB off-chain core

Shallow embedding of the order-book and matching-engine crates of the
SVM_CLOB repository (`svm_clob_infra/crates/order-book`,
`crates/matching-engine`, `crates/storage`, `crates/rpc-server`),
together with theorems checking the natural-language specification
against this embedding.

Modelling conventions:
* `u64` / `u32` values are modelled as `Nat`; `i64` timestamps as `Int`.
  Where Rust subtraction on unsigned integers cannot underflow on the
  inputs a theorem quantifies over, truncated `Nat` subtraction agrees
  with the machine subtraction; no theorem below depends on the
  underflowing region, and each theorem's hypotheses confine it to the
  agreeing region (see the comments at `update_order_quantity`).
* `Pubkey` owners are modelled as opaque `Nat` identifiers.
* The `BTreeMap<u64, PriceLevel>` price indexes are modelled as
  association lists kept sorted by ascending key (the book's own
  operations only ever insert in order), and the `DashMap<u64, Order>`
  order index is modelled as an association list in insertion order.
  `DashMap` iteration order is unspecified in Rust; theorems and
  counterexamples below are arranged so that they do not depend on this
  choice (counterexamples use distinct timestamps so the final
  `sort_by_key` determines the order completely).
* Error strings carried by `ClobError` variants are elided; only the
  variant matters to any claim.
* Wall-clock reads (`chrono::Utc::now()`) are passed in as an explicit
  `now : Int` parameter.
-/

deriving instance DecidableEq for Except

namespace Clob

/-- `OrderSide` from `crates/types`: `Bid = 0`, `Ask = 1`. -/
inductive OrderSide where
  | Bid
  | Ask
deriving DecidableEq, Repr

/-- `OrderType` from `crates/types`: `Limit = 0`, `Market = 1`, `PostOnly = 2`. -/
inductive OrderType where
  | Limit
  | Market
  | PostOnly
deriving DecidableEq, Repr

/-- `OrderStatus` from `crates/types`: discriminants 0..4. -/
inductive OrderStatus where
  | Open
  | PartiallyFilled
  | Filled
  | Cancelled
  | Expired
deriving DecidableEq, Repr

/-- `SelfTradeBehavior` from `crates/types`: discriminants 0..3. -/
inductive SelfTradeBehavior where
  | DecrementAndCancel
  | CancelProvide
  | CancelTake
  | CancelBoth
deriving DecidableEq, Repr

/-- `TimeInForce` from `crates/types`: discriminants 0..3. -/
inductive TimeInForce where
  | GoodTillCancelled
  | ImmediateOrCancel
  | FillOrKill
  | GoodTillTime
deriving DecidableEq, Repr

/-- The `#[repr(u8)]` discriminant of `OrderSide` (`v as u8` in Rust). -/
def OrderSide.toU8 : OrderSide → Nat
  | .Bid => 0
  | .Ask => 1

/-- The `#[repr(u8)]` discriminant of `OrderType`. -/
def OrderType.toU8 : OrderType → Nat
  | .Limit => 0
  | .Market => 1
  | .PostOnly => 2

/-- The `#[repr(u8)]` discriminant of `OrderStatus`. -/
def OrderStatus.toU8 : OrderStatus → Nat
  | .Open => 0
  | .PartiallyFilled => 1
  | .Filled => 2
  | .Cancelled => 3
  | .Expired => 4

/-- The `#[repr(u8)]` discriminant of `SelfTradeBehavior`. -/
def SelfTradeBehavior.toU8 : SelfTradeBehavior → Nat
  | .DecrementAndCancel => 0
  | .CancelProvide => 1
  | .CancelTake => 2
  | .CancelBoth => 3

/-- The `#[repr(u8)]` discriminant of `TimeInForce`. -/
def TimeInForce.toU8 : TimeInForce → Nat
  | .GoodTillCancelled => 0
  | .ImmediateOrCancel => 1
  | .FillOrKill => 2
  | .GoodTillTime => 3

/-- `impl TryFrom<u8> for OrderSide` from `crates/storage` (`Ok` as `some`,
`Err(())` as `none`). -/
def OrderSide.tryFromU8 : Nat → Option OrderSide
  | 0 => some .Bid
  | 1 => some .Ask
  | _ => none

/-- `impl TryFrom<u8> for OrderType` from `crates/storage`. -/
def OrderType.tryFromU8 : Nat → Option OrderType
  | 0 => some .Limit
  | 1 => some .Market
  | 2 => some .PostOnly
  | _ => none

/-- `impl TryFrom<u8> for OrderStatus` from `crates/storage`. -/
def OrderStatus.tryFromU8 : Nat → Option OrderStatus
  | 0 => some .Open
  | 1 => some .PartiallyFilled
  | 2 => some .Filled
  | 3 => some .Cancelled
  | 4 => some .Expired
  | _ => none

/-- `impl TryFrom<u8> for SelfTradeBehavior` from `crates/storage`. -/
def SelfTradeBehavior.tryFromU8 : Nat → Option SelfTradeBehavior
  | 0 => some .DecrementAndCancel
  | 1 => some .CancelProvide
  | 2 => some .CancelTake
  | 3 => some .CancelBoth
  | _ => none

/-- `impl TryFrom<u8> for TimeInForce` from `crates/storage`. -/
def TimeInForce.tryFromU8 : Nat → Option TimeInForce
  | 0 => some .GoodTillCancelled
  | 1 => some .ImmediateOrCancel
  | 2 => some .FillOrKill
  | 3 => some .GoodTillTime
  | _ => none

/-- `Order` from `crates/types` (owner `Pubkey` as an opaque `Nat` id). -/
structure Order where
  order_id : Nat
  owner : Nat
  price : Nat
  quantity : Nat
  remaining_quantity : Nat
  timestamp : Int
  client_order_id : Nat
  expiry_timestamp : Int
  side : OrderSide
  order_type : OrderType
  status : OrderStatus
  self_trade_behavior : SelfTradeBehavior
  time_in_force : TimeInForce
deriving DecidableEq, Repr

/-- `PriceLevel` from `crates/types`. -/
structure PriceLevel where
  price : Nat
  quantity : Nat
  order_count : Nat
deriving DecidableEq, Repr

/-- `TradeExecution` from `crates/types`. -/
structure TradeExecution where
  maker_order_id : Nat
  taker_order_id : Nat
  price : Nat
  quantity : Nat
  timestamp : Int
  maker_side : OrderSide
deriving DecidableEq, Repr

/-- `OrderBookSnapshot` from `crates/types`. -/
structure OrderBookSnapshot where
  bids : List (Nat × Nat)
  asks : List (Nat × Nat)
  sequence_number : Nat
  timestamp : Int
deriving DecidableEq, Repr

/-- `ClobError` from `crates/types` (string payloads elided). -/
inductive ClobError where
  | InvalidOrderSide
  | InvalidOrderType
  | InvalidPrice
  | InvalidQuantity
  | OrderSizeBelowMinimum
  | PriceNotAlignedToTickSize
  | OrderbookPaused
  | InsufficientBalance
  | OrderNotFound
  | Unauthorized
  | SelfTradeDetected
  | OrderExpired
  | MarketOrderWouldCrossSpread
  | PostOnlyOrderWouldMatch
  | StorageError
  | NetworkError
  | SerializationError
deriving DecidableEq, Repr

/-- The fields of the `OrderBook` market-configuration struct
(`crates/types`) that the matching engine reads: `tick_size`,
`min_order_size` and `is_paused`.  The remaining fields (mints,
authority, statistics) are never read by the code the claims cover. -/
structure OrderBookConfig where
  tick_size : Nat
  min_order_size : Nat
  is_paused : Bool
deriving DecidableEq, Repr

/-! ## Association-list maps

`alookup` / `aupdate` / `aerase` model the keyed maps: `aupdate`
replaces the value at an existing key in place (as `DashMap::insert`
and `BTreeMap` mutation through `get_mut` do) and appends a missing key
at the end; `lvlInsertSorted` inserts a fresh price level at its sorted
position, as `BTreeMap::entry(...).or_insert(...)` does. -/

/-- Look up a key in an association list. -/
def alookup {α : Type} (k : Nat) : List (Nat × α) → Option α
  | [] => none
  | (k', v) :: rest => if k' = k then some v else alookup k rest

/-- Replace the value at key `k` (keeping its position), or append. -/
def aupdate {α : Type} (k : Nat) (v : α) : List (Nat × α) → List (Nat × α)
  | [] => [(k, v)]
  | (k', v') :: rest =>
      if k' = k then (k, v) :: rest else (k', v') :: aupdate k v rest

/-- Remove the entry at key `k`, if present. -/
def aerase {α : Type} (k : Nat) : List (Nat × α) → List (Nat × α)
  | [] => []
  | (k', v') :: rest => if k' = k then rest else (k', v') :: aerase k rest

/-- Insert a fresh key at its position in a key-sorted association list. -/
def lvlInsertSorted {α : Type} (k : Nat) (v : α) : List (Nat × α) → List (Nat × α)
  | [] => [(k, v)]
  | (k', v') :: rest =>
      if k ≤ k' then (k, v) :: (k', v') :: rest
      else (k', v') :: lvlInsertSorted k v rest

/-- `OrderBookManager` from `crates/order-book`. -/
structure OrderBookManager where
  bid_levels : List (Nat × PriceLevel)
  ask_levels : List (Nat × PriceLevel)
  orders : List (Nat × Order)
  tick_size : Nat
  min_order_size : Nat
  sequence_number : Nat
deriving DecidableEq, Repr

namespace OrderBookManager

/-- `OrderBookManager::new`. -/
def new (tick_size min_order_size : Nat) : OrderBookManager :=
  { bid_levels := [], ask_levels := [], orders := []
  , tick_size := tick_size, min_order_size := min_order_size
  , sequence_number := 0 }

/-- The price-level index of one side of the book. -/
def sideLevels (b : OrderBookManager) : OrderSide → List (Nat × PriceLevel)
  | .Bid => b.bid_levels
  | .Ask => b.ask_levels

/-- Replace the price-level index of one side of the book. -/
def setSideLevels (b : OrderBookManager) (s : OrderSide)
    (ls : List (Nat × PriceLevel)) : OrderBookManager :=
  match s with
  | .Bid => { b with bid_levels := ls }
  | .Ask => { b with ask_levels := ls }

/-- The level-update step of `add_order`:
`entry(price).or_insert(empty level)` followed by
`quantity += remaining` and `order_count += 1`. -/
def addToLevels (ls : List (Nat × PriceLevel)) (price rem : Nat) :
    List (Nat × PriceLevel) :=
  match alookup price ls with
  | some l =>
      aupdate price
        { l with quantity := l.quantity + rem, order_count := l.order_count + 1 } ls
  | none => lvlInsertSorted price { price := price, quantity := rem, order_count := 1 } ls

/-- `OrderBookManager::add_order`. -/
def add_order (b : OrderBookManager) (o : Order) :
    Except ClobError OrderBookManager :=
  if o.price % b.tick_size ≠ 0 then .error .PriceNotAlignedToTickSize
  else
    let b := b.setSideLevels o.side (addToLevels (b.sideLevels o.side) o.price o.remaining_quantity)
    let b := { b with orders := aupdate o.order_id o b.orders }
    .ok { b with sequence_number := b.sequence_number + 1 }

/-- The level-update step of `remove_order`: `quantity -= remaining`,
`order_count -= 1`, deleting the level when `order_count` reaches zero;
a missing level is silently skipped (the code's `if let Some(level)`). -/
def removeFromLevels (ls : List (Nat × PriceLevel)) (price rem : Nat) :
    List (Nat × PriceLevel) :=
  match alookup price ls with
  | some l =>
      let l := { l with quantity := l.quantity - rem, order_count := l.order_count - 1 }
      if l.order_count = 0 then aerase price ls else aupdate price l ls
  | none => ls

/-- `OrderBookManager::remove_order`. -/
def remove_order (b : OrderBookManager) (order_id : Nat) :
    Except ClobError (Order × OrderBookManager) :=
  match alookup order_id b.orders with
  | none => .error .OrderNotFound
  | some o =>
      let b := { b with orders := aerase order_id b.orders }
      let b := b.setSideLevels o.side
        (removeFromLevels (b.sideLevels o.side) o.price o.remaining_quantity)
      .ok (o, { b with sequence_number := b.sequence_number + 1 })

/-- The level-update step of `update_order_quantity`:
`quantity -= quantity_change`, deleting the level when its aggregate
quantity reaches zero; a missing level is silently skipped. -/
def updateLevels (ls : List (Nat × PriceLevel)) (price qc : Nat) :
    List (Nat × PriceLevel) :=
  match alookup price ls with
  | some l =>
      let l := { l with quantity := l.quantity - qc }
      if l.quantity = 0 then aerase price ls else aupdate price l ls
  | none => ls

/-- The fully-filled tail of `update_order_quantity`: set the stored
order's status to `Filled`, then run `remove_order` and bump the
sequence number a second time. -/
def updateFillRemove (b : OrderBookManager) (order_id : Nat) (o : Order) :
    Except ClobError OrderBookManager :=
  let o := { o with status := OrderStatus.Filled }
  let b := { b with orders := aupdate order_id o b.orders }
  match remove_order b order_id with
  | .error e => .error e
  | .ok (_, b) => .ok { b with sequence_number := b.sequence_number + 1 }

/-- The book produced by `updateFillRemove`, written out as a pure
record computation (status set to `Filled`, id erased from the order
index, `removeFromLevels` applied on the order's side, sequence number
bumped twice). -/
def fillRemoveResult (b : OrderBookManager) (order_id : Nat) (o : Order) :
    OrderBookManager :=
  let o := { o with status := OrderStatus.Filled }
  let b := { b with orders := aupdate order_id o b.orders }
  let b2 := { b with orders := aerase order_id b.orders }
  let b3 := b2.setSideLevels o.side
    (removeFromLevels (b2.sideLevels o.side) o.price o.remaining_quantity)
  let b4 := { b3 with sequence_number := b3.sequence_number + 1 }
  { b4 with sequence_number := b4.sequence_number + 1 }

/-- `OrderBookManager::update_order_quantity`.  The Rust computes
`quantity_change = old - new` on `u64`, which underflows when
`new > old`; that region is modelled with truncated `Nat` subtraction
and no theorem below relies on it. -/
def update_order_quantity (b : OrderBookManager) (order_id new_remaining : Nat) :
    Except ClobError OrderBookManager :=
  match alookup order_id b.orders with
  | none => .error .OrderNotFound
  | some o =>
      let old := o.remaining_quantity
      let qc := old - new_remaining
      let o := { o with remaining_quantity := new_remaining }
      let b := { b with orders := aupdate order_id o b.orders }
      let b := b.setSideLevels o.side (updateLevels (b.sideLevels o.side) o.price qc)
      if new_remaining = 0 then
        updateFillRemove b order_id o
      else
        let o := if new_remaining < o.quantity then { o with status := .PartiallyFilled } else o
        let b := { b with orders := aupdate order_id o b.orders }
        .ok { b with sequence_number := b.sequence_number + 1 }

/-- `OrderBookManager::get_best_bid` (`bid_levels.keys().last()`). -/
def get_best_bid (b : OrderBookManager) : Option Nat :=
  (b.bid_levels.map Prod.fst).getLast?

/-- `OrderBookManager::get_best_ask` (`ask_levels.keys().next()`). -/
def get_best_ask (b : OrderBookManager) : Option Nat :=
  (b.ask_levels.map Prod.fst).head?

/-- Stable insertion step of `Vec::sort_by_key(|o| o.timestamp)`. -/
def insertByTs (o : Order) : List Order → List Order
  | [] => [o]
  | x :: xs => if x.timestamp < o.timestamp then x :: insertByTs o xs else o :: x :: xs

/-- Stable sort by `timestamp`, modelling `sort_by_key(|o| o.timestamp)`. -/
def sortByTimestamp : List Order → List Order
  | [] => []
  | x :: xs => insertByTs x (sortByTimestamp xs)

/-- One level iteration of `get_asks_up_to_price` / `get_bids_down_to_price`:
push every resting order of the given side at this price, then re-sort the
whole accumulated vector by timestamp (this is what the source does: the
`sort_by_key` sits inside the per-price loop and sorts the entire `orders`
vector). -/
def collectLevels (ordersList : List (Nat × Order)) (s : OrderSide) :
    List Nat → List Order → List Order
  | [], acc => acc
  | p :: rest, acc =>
      let acc := acc ++ (ordersList.map Prod.snd).filter
        (fun o => o.side = s ∧ o.price = p ∧ 0 < o.remaining_quantity)
      let acc := sortByTimestamp acc
      collectLevels ordersList s rest acc

/-- `OrderBookManager::get_bids_down_to_price` (the source wraps the
vector in `Ok(...)` and can never fail; the list is returned directly). -/
def get_bids_down_to_price (b : OrderBookManager) (min_price : Nat) : List Order :=
  collectLevels b.orders .Bid
    (((b.bid_levels.map Prod.fst).filter (fun p => min_price ≤ p)).reverse) []

/-- `OrderBookManager::get_asks_up_to_price` (the source wraps the
vector in `Ok(...)` and can never fail; the list is returned directly). -/
def get_asks_up_to_price (b : OrderBookManager) (max_price : Nat) : List Order :=
  collectLevels b.orders .Ask
    ((b.ask_levels.map Prod.fst).filter (fun p => p ≤ max_price)) []

/-- `OrderBookManager::get_snapshot` (wall clock passed in as `now`). -/
def get_snapshot (b : OrderBookManager) (now : Int) : OrderBookSnapshot :=
  { bids := (b.bid_levels.map (fun kv => (kv.1, kv.2.quantity))).reverse
  , asks := b.ask_levels.map (fun kv => (kv.1, kv.2.quantity))
  , sequence_number := b.sequence_number
  , timestamp := now }

/-- `OrderBookManager::get_order`. -/
def get_order (b : OrderBookManager) (order_id : Nat) : Option Order :=
  alookup order_id b.orders

end OrderBookManager

/-! ## Matching engine (`crates/matching-engine`)

`MatchingEngine` state is the book plus the market configuration; the
storage port only journals copies and is omitted (its calls cannot
change the book or the returned trades).  The matching loops are the
`for matching_order in matching_orders` loops of `execute_market_order`
and `execute_limit_order`, written as structural recursion on the
fetched maker list with the loop-carried state passed explicitly. -/

open OrderBookManager

/-- `MatchingEngine::is_self_trade`. -/
def is_self_trade (order1 order2 : Order) : Bool :=
  order1.owner = order2.owner

/-- `MatchingEngine::handle_self_trade`: returns the (possibly
cancelled) taker and the book after any maker removal. -/
def handle_self_trade (ob : OrderBookManager) (taker : Order) (maker : Order) :
    Except ClobError (Order × OrderBookManager) :=
  match taker.self_trade_behavior with
  | .DecrementAndCancel =>
      if taker.remaining_quantity ≤ maker.remaining_quantity then
        .ok ({ taker with status := .Cancelled }, ob)
      else
        (remove_order ob maker.order_id).map (fun p => (taker, p.2))
  | .CancelProvide =>
      (remove_order ob maker.order_id).map (fun p => (taker, p.2))
  | .CancelTake =>
      .ok ({ taker with status := .Cancelled }, ob)
  | .CancelBoth =>
      (remove_order ob maker.order_id).map
        (fun p => ({ taker with status := .Cancelled }, p.2))

/-- The `can_match` price-compatibility test of `execute_limit_order`. -/
def canMatch (order m : Order) : Bool :=
  match order.side with
  | .Bid => m.price ≤ order.price
  | .Ask => order.price ≤ m.price

/-- The trade record built at a match (both matching paths build it the
same way: maker price, `min` of the remaining quantities). -/
def mkTrade (now : Int) (order m : Order) : TradeExecution :=
  { maker_order_id := m.order_id
  , taker_order_id := order.order_id
  , price := m.price
  , quantity := min order.remaining_quantity m.remaining_quantity
  , timestamp := now
  , maker_side := m.side }

/-- The matching loop of `execute_limit_order`. -/
def limitMatchLoop (now : Int) (ob : OrderBookManager) (order : Order)
    (makers : List Order) (trades : List TradeExecution) :
    Except ClobError (OrderBookManager × Order × List TradeExecution) :=
  match makers with
  | [] => .ok (ob, order, trades)
  | m :: rest =>
      if order.remaining_quantity = 0 then .ok (ob, order, trades)
      else if ¬ canMatch order m then .ok (ob, order, trades)
      else if is_self_trade order m then
        match handle_self_trade ob order m with
        | .error e => .error e
        | .ok (order, ob) => limitMatchLoop now ob order rest trades
      else
        let tq := min order.remaining_quantity m.remaining_quantity
        let trade := mkTrade now order m
        let order := { order with remaining_quantity := order.remaining_quantity - tq }
        match update_order_quantity ob m.order_id (m.remaining_quantity - tq) with
        | .error e => .error e
        | .ok ob => limitMatchLoop now ob order rest (trades ++ [trade])

/-- The matching loop of `execute_market_order` (no price check). -/
def marketMatchLoop (now : Int) (ob : OrderBookManager) (order : Order)
    (makers : List Order) (trades : List TradeExecution) :
    Except ClobError (OrderBookManager × Order × List TradeExecution) :=
  match makers with
  | [] => .ok (ob, order, trades)
  | m :: rest =>
      if order.remaining_quantity = 0 then .ok (ob, order, trades)
      else if is_self_trade order m then
        match handle_self_trade ob order m with
        | .error e => .error e
        | .ok (order, ob) => marketMatchLoop now ob order rest trades
      else
        let tq := min order.remaining_quantity m.remaining_quantity
        let trade := mkTrade now order m
        let order := { order with remaining_quantity := order.remaining_quantity - tq }
        match update_order_quantity ob m.order_id (m.remaining_quantity - tq) with
        | .error e => .error e
        | .ok ob => marketMatchLoop now ob order rest (trades ++ [trade])

/-- `u64::MAX`, the unbounded limit price of a market buy. -/
def u64Max : Nat := 2 ^ 64 - 1

/-- The post-loop status update shared by both execution paths. -/
def statusAfterLoop (order : Order) : Order :=
  if order.remaining_quantity = 0 then { order with status := .Filled }
  else if order.remaining_quantity < order.quantity then
    { order with status := .PartiallyFilled }
  else order

/-- `MatchingEngine::execute_market_order`. -/
def execute_market_order (now : Int) (ob : OrderBookManager) (order : Order) :
    Except ClobError (OrderBookManager × Order × List TradeExecution) :=
  let makers := match order.side with
    | .Bid => get_asks_up_to_price ob u64Max
    | .Ask => get_bids_down_to_price ob 0
  match marketMatchLoop now ob order makers [] with
  | .error e => .error e
  | .ok (ob, order, trades) =>
      let order := statusAfterLoop order
      let order :=
        if 0 < order.remaining_quantity ∧ order.time_in_force = .ImmediateOrCancel then
          { order with status := .Cancelled }
        else order
      .ok (ob, order, trades)

/-- The post-loop status update and time-in-force step of
`execute_limit_order` (FOK discards the trade records, IOC cancels the
remainder, GTC/GTT rest the remainder on the book). -/
def limitPostLoop (ob : OrderBookManager) (order0 : Order)
    (trades : List TradeExecution) :
    Except ClobError (OrderBookManager × Order × List TradeExecution) :=
  let order := statusAfterLoop order0
  match order.time_in_force with
  | .FillOrKill =>
      if 0 < order.remaining_quantity then
        .ok (ob, { order with status := .Cancelled }, [])
      else .ok (ob, order, trades)
  | .ImmediateOrCancel =>
      if 0 < order.remaining_quantity then
        .ok (ob, { order with status := .Cancelled }, trades)
      else .ok (ob, order, trades)
  | .GoodTillCancelled | .GoodTillTime =>
      if 0 < order.remaining_quantity then
        match add_order ob order with
        | .error e => .error e
        | .ok ob => .ok (ob, order, trades)
      else .ok (ob, order, trades)

/-- `MatchingEngine::execute_limit_order`. -/
def execute_limit_order (now : Int) (ob : OrderBookManager) (order : Order) :
    Except ClobError (OrderBookManager × Order × List TradeExecution) :=
  let makers := match order.side with
    | .Bid => get_asks_up_to_price ob order.price
    | .Ask => get_bids_down_to_price ob order.price
  match limitMatchLoop now ob order makers [] with
  | .error e => .error e
  | .ok (ob, order, trades) => limitPostLoop ob order trades

/-- `MatchingEngine::would_match_immediately`. -/
def would_match_immediately (ob : OrderBookManager) (order : Order) : Bool :=
  let best_opposite := match order.side with
    | .Bid => get_best_ask ob
    | .Ask => get_best_bid ob
  match best_opposite with
  | some best_price =>
      match order.side with
      | .Bid => best_price ≤ order.price
      | .Ask => order.price ≤ best_price
  | none => false

/-- `MatchingEngine::validate_order`. -/
def validate_order (cfg : OrderBookConfig) (now : Int) (order : Order) :
    Except ClobError Unit :=
  if order.quantity < cfg.min_order_size then .error .OrderSizeBelowMinimum
  else if order.price % cfg.tick_size ≠ 0 then .error .PriceNotAlignedToTickSize
  else if cfg.is_paused then .error .OrderbookPaused
  else if order.time_in_force = .GoodTillTime ∧ order.expiry_timestamp ≤ now then
    .error .OrderExpired
  else .ok ()

/-- `MatchingEngine::place_order`: validation, dispatch on order type,
returning the mutated book, the final state of the placed order and the
emitted trades (the storage journaling of copies is omitted). -/
def place_order (cfg : OrderBookConfig) (now : Int) (ob : OrderBookManager)
    (order : Order) :
    Except ClobError (OrderBookManager × Order × List TradeExecution) :=
  match validate_order cfg now order with
  | .error e => .error e
  | .ok _ =>
      match order.order_type with
      | .Market => execute_market_order now ob order
      | .Limit => execute_limit_order now ob order
      | .PostOnly =>
          if would_match_immediately ob order then .error .PostOnlyOrderWouldMatch
          else
            match add_order ob order with
            | .error e => .error e
            | .ok ob => .ok (ob, order, [])

/-- `MatchingEngine::cancel_order`: removes the order from the book and
returns it with status `Cancelled`. -/
def cancel_order (ob : OrderBookManager) (order_id : Nat) :
    Except ClobError (Order × OrderBookManager) :=
  match remove_order ob order_id with
  | .error e => .error e
  | .ok (o, ob) => .ok ({ o with status := .Cancelled }, ob)

/-! ## Recent-trades query (`crates/storage`, `crates/rpc-server`) -/

/-- Stable insertion step of the `ORDER BY timestamp DESC` sort. -/
def insertTradeDesc (t : TradeExecution) : List TradeExecution → List TradeExecution
  | [] => [t]
  | x :: xs => if t.timestamp < x.timestamp then x :: insertTradeDesc t xs
               else t :: x :: xs

/-- Sort trades newest first, modelling `ORDER BY timestamp DESC`. -/
def sortTradesDesc : List TradeExecution → List TradeExecution
  | [] => []
  | x :: xs => insertTradeDesc x (sortTradesDesc xs)

/-- `PostgresStorage::get_recent_trades`: `SELECT * FROM trades ORDER BY
timestamp DESC LIMIT $1`, over a trades table modelled as the list of
stored rows. -/
def get_recent_trades (table : List TradeExecution) (limit : Nat) :
    List TradeExecution :=
  (sortTradesDesc table).take limit

/-- `get_trades_handler` from `crates/rpc-server`:
`let limit = params.limit.unwrap_or(100).min(1000)` followed by the
storage query. -/
def get_trades_handler (table : List TradeExecution) (limitParam : Option Nat) :
    List TradeExecution :=
  get_recent_trades table (min (limitParam.getD 100) 1000)

/-! ## Read-only calls, in receiver-threading form (for the frame claim)

Each `&self` method of `OrderBookManager` is modelled as a function from
the receiver to the result paired with the receiver state after the
call; the method bodies only read fields (`get_snapshot` builds its
vectors from the level maps, `get_order` clones the looked-up record),
so the threaded-out state is the record the call leaves behind. -/

/-- `get_snapshot` as a call on the receiver. -/
def get_snapshot_call (b : OrderBookManager) (now : Int) :
    OrderBookSnapshot × OrderBookManager :=
  (get_snapshot b now, b)

/-- `get_best_bid` as a call on the receiver. -/
def get_best_bid_call (b : OrderBookManager) : Option Nat × OrderBookManager :=
  (get_best_bid b, b)

/-- `get_best_ask` as a call on the receiver. -/
def get_best_ask_call (b : OrderBookManager) : Option Nat × OrderBookManager :=
  (get_best_ask b, b)

/-- `get_order` as a call on the receiver. -/
def get_order_call (b : OrderBookManager) (order_id : Nat) :
    Option Order × OrderBookManager :=
  (get_order b order_id, b)

/-! ## Concrete fixtures used by the claim theorems -/

/-- A default order record; concrete test orders override its fields. -/
def baseOrder : Order :=
  { order_id := 0, owner := 0, price := 0, quantity := 1, remaining_quantity := 1
  , timestamp := 0, client_order_id := 0, expiry_timestamp := 0
  , side := .Bid, order_type := .Limit, status := .Open
  , self_trade_behavior := .DecrementAndCancel, time_in_force := .GoodTillCancelled }

/-- Market configuration for the concrete runs: tick 1, minimum size 1,
not paused. -/
def cfgC : OrderBookConfig := { tick_size := 1, min_order_size := 1, is_paused := false }

/-- A resting ask: id 1, owner 1, price 100, quantity 5. -/
def makerAsk100 : Order :=
  { baseOrder with order_id := 1, owner := 1, price := 100, quantity := 5, remaining_quantity := 5, side := .Ask }

/-- The book holding exactly `makerAsk100`, built by `add_order`. -/
def bookAsk100 : OrderBookManager :=
  ((OrderBookManager.new 1 1).add_order makerAsk100).toOption.getD (OrderBookManager.new 0 0)

/-- A FOK bid for 10 at 100 from a different owner: it can only
partially fill against `makerAsk100`. -/
def takerFOK : Order :=
  { baseOrder with order_id := 2, owner := 2, price := 100, quantity := 10, remaining_quantity := 10, side := .Bid, time_in_force := .FillOrKill }

/-- Ask id 1 at price 20 with timestamp 1. -/
def askP20T1 : Order :=
  { baseOrder with order_id := 1, owner := 1, price := 20, quantity := 5, remaining_quantity := 5, side := .Ask, timestamp := 1 }

/-- Ask id 2 at price 10 with timestamp 2. -/
def askP10T2 : Order :=
  { baseOrder with order_id := 2, owner := 2, price := 10, quantity := 5, remaining_quantity := 5, side := .Ask, timestamp := 2 }

/-- The book holding `askP20T1` and `askP10T2`, built by `add_order`. -/
def bookTwoAsks : OrderBookManager :=
  (((OrderBookManager.new 1 1).add_order askP20T1).bind
    (fun b => b.add_order askP10T2)).toOption.getD (OrderBookManager.new 0 0)

/-- A GTC bid for 5 at 100 from the same owner as `makerAsk100`, with
`CancelTake` self-trade prevention. -/
def takerSelfCT : Order :=
  { baseOrder with order_id := 2, owner := 1, price := 100, quantity := 5, remaining_quantity := 5, side := .Bid, self_trade_behavior := .CancelTake }

/-- A GTC bid for 5 at 100 from the same owner as `makerAsk100`, with
`DecrementAndCancel` self-trade prevention; its remaining quantity
equals the maker's. -/
def takerSelfDAC : Order :=
  { baseOrder with order_id := 2, owner := 1, price := 100, quantity := 5, remaining_quantity := 5, side := .Bid, self_trade_behavior := .DecrementAndCancel }

/-- Run `place_order` on an intermediate engine state, keeping the book. -/
def placeBookStep (cfg : OrderBookConfig) (now : Int)
    (st : Except ClobError OrderBookManager) (o : Order) :
    Except ClobError OrderBookManager :=
  st.bind (fun b => (place_order cfg now b o).map (fun r => r.1))

/-- The book after placing `makerAsk100` and then `takerSelfCT` through
`place_order` on an empty book. -/
def bookAfterSelfCT : OrderBookManager :=
  (placeBookStep cfgC 0
    (placeBookStep cfgC 0 (.ok (OrderBookManager.new 1 1)) makerAsk100)
    takerSelfCT).toOption.getD (OrderBookManager.new 0 0)

/-- A GTC market bid for 5 (owner 1): nothing to match on an empty book. -/
def marketGTC : Order :=
  { baseOrder with order_id := 1, owner := 1, price := 0, quantity := 5, remaining_quantity := 5, side := .Bid, order_type := .Market, time_in_force := .GoodTillCancelled }

/-- An IOC market bid for 5 (owner 1): nothing to match on an empty book. -/
def marketIOC : Order :=
  { marketGTC with time_in_force := .ImmediateOrCancel }

/-- A GTC limit bid for 3 at 100 (owner 2): partially consumes
`makerAsk100`. -/
def takerBid3 : Order :=
  { baseOrder with order_id := 3, owner := 2, price := 100, quantity := 3, remaining_quantity := 3, side := .Bid }

/-- The result of executing `takerBid3` against `bookAsk100`. -/
def rC6 : OrderBookManager × Order × List TradeExecution :=
  (execute_limit_order 0 bookAsk100 takerBid3).toOption.getD
    (OrderBookManager.new 0 0, baseOrder, [])

/-- The book after partially filling `makerAsk100` down to remaining 2. -/
def bC7res : OrderBookManager :=
  (OrderBookManager.update_order_quantity bookAsk100 1 2).toOption.getD
    (OrderBookManager.new 0 0)

/-! ## Statement helpers -/

/-- Aggregate quantity recorded at a price level (0 if the level is absent). -/
def levelQty (b : OrderBookManager) (s : OrderSide) (price : Nat) : Nat :=
  ((alookup price (b.sideLevels s)).map PriceLevel.quantity).getD 0

/-- Whether an order id is present in the book's order-id index. -/
def hasOrder (b : OrderBookManager) (order_id : Nat) : Bool :=
  (b.get_order order_id).isSome

/-- Total quantity of a list of trades. -/
def sumQty (ts : List TradeExecution) : Nat :=
  ts.foldr (fun t a => t.quantity + a) 0

/-- The maker list fetched by `execute_limit_order` for a taker. -/
def makersFetchedLimit (ob : OrderBookManager) (order : Order) : List Order :=
  match order.side with
  | .Bid => ob.get_asks_up_to_price order.price
  | .Ask => ob.get_bids_down_to_price order.price

/-- The maker list fetched by `execute_market_order` for a taker. -/
def makersFetchedMarket (ob : OrderBookManager) (order : Order) : List Order :=
  match order.side with
  | .Bid => ob.get_asks_up_to_price u64Max
  | .Ask => ob.get_bids_down_to_price 0

/-- Spec property for C6: every emitted trade references a fetched
maker entry by its `maker_order_id`, carries that maker's side, prices
at that maker's price, and sizes as the `min` of the taker's remaining
quantity at that moment (the initial remaining minus all quantity
traded before it) and that maker's remaining quantity. -/
def tradesFaithful (taker : Order) (makers : List Order)
    (trades : List TradeExecution) : Prop :=
  ∀ pre t post, trades = pre ++ t :: post →
    ∃ m ∈ makers, t.maker_order_id = m.order_id ∧ t.maker_side = m.side ∧
      t.price = m.price ∧
      t.quantity = min (taker.remaining_quantity - sumQty pre) m.remaining_quantity

/-! ## Association-list lemmas -/

theorem alookup_aupdate_self {α : Type} (k : Nat) (v : α) (l : List (Nat × α)) :
    alookup k (aupdate k v l) = some v := by
  induction l with
  | nil => simp [alookup, aupdate]
  | cons hd tl ih =>
      obtain ⟨k', v'⟩ := hd
      by_cases h : k' = k
      · subst h; simp [aupdate, alookup]
      · simp [aupdate, alookup, h, ih]

theorem alookup_aupdate_ne {α : Type} {k j : Nat} (hne : k ≠ j) (v : α)
    (l : List (Nat × α)) : alookup k (aupdate j v l) = alookup k l := by
  have hjk : ¬ (j = k) := fun h => hne h.symm
  induction l with
  | nil => simp [alookup, aupdate, hjk]
  | cons hd tl ih =>
      obtain ⟨k', v'⟩ := hd
      by_cases h : k' = j
      · subst h
        simp [aupdate, alookup, hjk]
      · simp [aupdate, alookup, h, ih]

theorem alookup_aerase_ne {α : Type} {k j : Nat} (hne : k ≠ j)
    (l : List (Nat × α)) : alookup k (aerase j l) = alookup k l := by
  have hjk : ¬ (j = k) := fun h => hne h.symm
  induction l with
  | nil => simp [aerase]
  | cons hd tl ih =>
      obtain ⟨k', v'⟩ := hd
      by_cases h : k' = j
      · subst h; simp [aerase, alookup, hjk]
      · simp [aerase, alookup, h, ih]

theorem alookup_aerase_isSome {α : Type} (k j : Nat) (l : List (Nat × α)) :
    (alookup k (aerase j l)).isSome = true → (alookup k l).isSome = true := by
  induction l with
  | nil => simp [aerase]
  | cons hd tl ih =>
      obtain ⟨k', v'⟩ := hd
      by_cases h : k' = j
      · intro hs
        rw [aerase, if_pos h] at hs
        by_cases h2 : k' = k
        · simp [alookup, h2]
        · simp only [alookup, if_neg h2]
          exact hs
      · intro hs
        simp only [aerase, if_neg h, alookup] at hs
        simp only [alookup]
        by_cases h2 : k' = k
        · simp [h2]
        · rw [if_neg h2] at hs ⊢
          exact ih hs

theorem alookup_eq_none {α : Type} {k : Nat} {l : List (Nat × α)}
    (h : k ∉ l.map Prod.fst) : alookup k l = none := by
  induction l with
  | nil => simp [alookup]
  | cons hd tl ih =>
      obtain ⟨k', v'⟩ := hd
      simp only [List.map_cons, List.mem_cons] at h
      push_neg at h
      have h1 : ¬ (k' = k) := fun hh => h.1 hh.symm
      simp [alookup, h1, ih h.2]

theorem alookup_aerase_self {α : Type} {j : Nat} {l : List (Nat × α)}
    (h : (l.map Prod.fst).Nodup) : alookup j (aerase j l) = none := by
  induction l with
  | nil => simp [aerase, alookup]
  | cons hd tl ih =>
      obtain ⟨k', v'⟩ := hd
      simp only [List.map_cons, List.nodup_cons] at h
      by_cases h2 : k' = j
      · subst h2
        simp only [aerase, if_pos rfl]
        exact alookup_eq_none h.1
      · simp [aerase, alookup, h2, ih h.2]

/-! ## Small structural lemmas about the book operations -/

theorem orders_setSideLevels (b : OrderBookManager) (s : OrderSide)
    (ls : List (Nat × PriceLevel)) : (b.setSideLevels s ls).orders = b.orders := by
  cases s <;> rfl

theorem sideLevels_setSideLevels (b : OrderBookManager) (s : OrderSide)
    (ls : List (Nat × PriceLevel)) : (b.setSideLevels s ls).sideLevels s = ls := by
  cases s <;> rfl

theorem remove_order_elim {b : OrderBookManager} {oid : Nat} {o : Order}
    {b' : OrderBookManager}
    (h : OrderBookManager.remove_order b oid = .ok (o, b')) :
    alookup oid b.orders = some o ∧ b'.orders = aerase oid b.orders := by
  unfold OrderBookManager.remove_order at h
  cases hl : alookup oid b.orders with
  | none => rw [hl] at h; exact absurd h (by simp)
  | some o2 =>
      rw [hl] at h
      simp only [Except.ok.injEq, Prod.mk.injEq] at h
      obtain ⟨ho, hb⟩ := h
      constructor
      · exact congrArg some ho
      · rw [← hb]
        exact orders_setSideLevels _ _ _

theorem remove_order_ok_of_mem {b : OrderBookManager} {oid : Nat} {o : Order}
    (h : alookup oid b.orders = some o) :
    ∃ b', OrderBookManager.remove_order b oid = .ok (o, b') := by
  unfold OrderBookManager.remove_order
  rw [h]
  exact ⟨_, rfl⟩

/-- The fields of the taker that `handle_self_trade` can change: only
`status`; the remaining quantity, time in force and identity survive. -/
theorem handle_self_trade_fields {ob : OrderBookManager} {taker maker t' : Order}
    {ob' : OrderBookManager}
    (h : handle_self_trade ob taker maker = .ok (t', ob')) :
    t'.remaining_quantity = taker.remaining_quantity ∧
    t'.time_in_force = taker.time_in_force ∧
    t'.quantity = taker.quantity ∧
    t'.order_id = taker.order_id := by
  unfold handle_self_trade at h
  cases hb : taker.self_trade_behavior <;> rw [hb] at h
  · by_cases hle : taker.remaining_quantity ≤ maker.remaining_quantity
    · simp only [if_pos hle, Except.ok.injEq, Prod.mk.injEq] at h
      obtain ⟨ht, _⟩ := h
      subst ht; exact ⟨rfl, rfl, rfl, rfl⟩
    · simp only [if_neg hle] at h
      cases hr : OrderBookManager.remove_order ob maker.order_id <;>
        rw [hr] at h <;> simp [Except.map] at h
      obtain ⟨ht, _⟩ := h
      subst ht; exact ⟨rfl, rfl, rfl, rfl⟩
  · cases hr : OrderBookManager.remove_order ob maker.order_id <;>
      rw [hr] at h <;> simp [Except.map] at h
    obtain ⟨ht, _⟩ := h
    subst ht; exact ⟨rfl, rfl, rfl, rfl⟩
  · simp only [Except.ok.injEq, Prod.mk.injEq] at h
    obtain ⟨ht, _⟩ := h
    subst ht; exact ⟨rfl, rfl, rfl, rfl⟩
  · cases hr : OrderBookManager.remove_order ob maker.order_id <;>
      rw [hr] at h <;> simp [Except.map] at h
    obtain ⟨ht, _⟩ := h
    subst ht; exact ⟨rfl, rfl, rfl, rfl⟩

theorem aupdate_aupdate {α : Type} (k : Nat) (v1 v2 : α) (l : List (Nat × α)) :
    aupdate k v2 (aupdate k v1 l) = aupdate k v2 l := by
  induction l with
  | nil => simp [aupdate]
  | cons hd tl ih =>
      obtain ⟨k', v'⟩ := hd
      by_cases h : k' = k
      · simp [aupdate, h]
      · simp [aupdate, h, ih]

/-- Ids present after `updateFillRemove` were present before (or are
the removed id itself). -/
theorem hasOrder_updateFillRemove_mono {b : OrderBookManager} {oid : Nat}
    {o : Order} {b' : OrderBookManager}
    (h : updateFillRemove b oid o = .ok b') (k : Nat)
    (hk : (alookup k b'.orders).isSome = true) :
    (alookup k b.orders).isSome = true ∨ k = oid := by
  unfold updateFillRemove at h
  dsimp only at h
  cases hr : OrderBookManager.remove_order
      { b with orders := aupdate oid { o with status := OrderStatus.Filled } b.orders }
      oid with
  | error e => rw [hr] at h; exact absurd h (by simp)
  | ok p =>
      obtain ⟨po, pb⟩ := p
      rw [hr] at h
      dsimp only at h
      simp only [Except.ok.injEq] at h
      rw [← h] at hk
      dsimp only at hk
      rw [(remove_order_elim hr).2] at hk
      have hk2 := alookup_aerase_isSome _ _ _ hk
      dsimp only at hk2
      by_cases hko : k = oid
      · exact Or.inr hko
      · rw [alookup_aupdate_ne hko] at hk2
        exact Or.inl hk2

/-- Orders can only disappear under `update_order_quantity`: any id
present afterwards was present before. -/
theorem hasOrder_update_mono {b : OrderBookManager} {oid new : Nat}
    {b' : OrderBookManager}
    (h : OrderBookManager.update_order_quantity b oid new = .ok b') (k : Nat)
    (hk : (alookup k b'.orders).isSome = true) :
    (alookup k b.orders).isSome = true := by
  unfold OrderBookManager.update_order_quantity at h
  cases hl : alookup oid b.orders with
  | none => rw [hl] at h; exact absurd h (by simp)
  | some o =>
      rw [hl] at h
      dsimp only at h
      by_cases hz : new = 0
      · rw [if_pos hz] at h
        rcases hasOrder_updateFillRemove_mono h k hk with hks | hke
        · rw [orders_setSideLevels] at hks
          dsimp only at hks
          by_cases hko : k = oid
          · subst hko; rw [hl]; rfl
          · rwa [alookup_aupdate_ne hko] at hks
        · subst hke; rw [hl]; rfl
      · rw [if_neg hz] at h
        simp only [Except.ok.injEq] at h
        rw [← h] at hk
        dsimp only at hk
        rw [orders_setSideLevels, aupdate_aupdate] at hk
        by_cases hko : k = oid
        · subst hko; rw [hl]; rfl
        · rwa [alookup_aupdate_ne hko] at hk

/-- Orders can only disappear under `remove_order`. -/
theorem hasOrder_remove_mono {b : OrderBookManager} {oid : Nat} {o : Order}
    {b' : OrderBookManager}
    (h : OrderBookManager.remove_order b oid = .ok (o, b')) (k : Nat)
    (hk : (alookup k b'.orders).isSome = true) :
    (alookup k b.orders).isSome = true := by
  have h2 := (remove_order_elim h).2
  rw [h2] at hk
  exact alookup_aerase_isSome _ _ _ hk

/-- Orders can only disappear under `handle_self_trade`. -/
theorem hasOrder_handle_mono {ob : OrderBookManager} {taker maker t' : Order}
    {ob' : OrderBookManager}
    (h : handle_self_trade ob taker maker = .ok (t', ob')) (k : Nat)
    (hk : (alookup k ob'.orders).isSome = true) :
    (alookup k ob.orders).isSome = true := by
  unfold handle_self_trade at h
  cases hb : taker.self_trade_behavior <;> rw [hb] at h <;> dsimp only at h
  case DecrementAndCancel =>
    split at h
    · simp only [Except.ok.injEq, Prod.mk.injEq] at h
      rw [← h.2] at hk
      exact hk
    · cases hr : OrderBookManager.remove_order ob maker.order_id with
      | error e => rw [hr] at h; exact absurd h (by simp [Except.map])
      | ok p =>
          obtain ⟨po, pb⟩ := p
          rw [hr] at h
          simp only [Except.map, Except.ok.injEq, Prod.mk.injEq] at h
          rw [← h.2] at hk
          exact hasOrder_remove_mono hr k hk
  case CancelProvide =>
    cases hr : OrderBookManager.remove_order ob maker.order_id with
    | error e => rw [hr] at h; exact absurd h (by simp [Except.map])
    | ok p =>
        obtain ⟨po, pb⟩ := p
        rw [hr] at h
        simp only [Except.map, Except.ok.injEq, Prod.mk.injEq] at h
        rw [← h.2] at hk
        exact hasOrder_remove_mono hr k hk
  case CancelTake =>
    simp only [Except.ok.injEq, Prod.mk.injEq] at h
    rw [← h.2] at hk
    exact hk
  case CancelBoth =>
    cases hr : OrderBookManager.remove_order ob maker.order_id with
    | error e => rw [hr] at h; exact absurd h (by simp [Except.map])
    | ok p =>
        obtain ⟨po, pb⟩ := p
        rw [hr] at h
        simp only [Except.map, Except.ok.injEq, Prod.mk.injEq] at h
        rw [← h.2] at hk
        exact hasOrder_remove_mono hr k hk

/-- Orders can only disappear across the market matching loop. -/
theorem hasOrder_marketLoop_mono :
    ∀ (makers : List Order) (now : Int) (ob : OrderBookManager) (order : Order)
      (trades : List TradeExecution) r,
      marketMatchLoop now ob order makers trades = .ok r →
      ∀ k, (alookup k r.1.orders).isSome = true →
        (alookup k ob.orders).isSome = true := by
  intro makers
  induction makers with
  | nil =>
      intro now ob order trades r h k hk
      simp only [marketMatchLoop, Except.ok.injEq] at h
      rw [← h] at hk
      exact hk
  | cons m rest ih =>
      intro now ob order trades r h k hk
      rw [marketMatchLoop] at h
      by_cases hz : order.remaining_quantity = 0
      · rw [if_pos hz] at h
        simp only [Except.ok.injEq] at h
        rw [← h] at hk
        exact hk
      · rw [if_neg hz] at h
        by_cases hst : is_self_trade order m = true
        · rw [if_pos hst] at h
          cases hh : handle_self_trade ob order m with
          | error e => rw [hh] at h; exact absurd h (by simp)
          | ok p =>
              obtain ⟨t2, ob2⟩ := p
              rw [hh] at h
              dsimp only at h
              exact hasOrder_handle_mono hh k (ih now ob2 t2 trades r h k hk)
        · rw [if_neg hst] at h
          dsimp only at h
          cases hu : OrderBookManager.update_order_quantity ob m.order_id
              (m.remaining_quantity - min order.remaining_quantity m.remaining_quantity) with
          | error e => rw [hu] at h; exact absurd h (by simp)
          | ok ob2 =>
              rw [hu] at h
              dsimp only at h
              exact hasOrder_update_mono hu k (ih now ob2 _ _ r h k hk)

theorem statusAfterLoop_rem (o : Order) :
    (statusAfterLoop o).remaining_quantity = o.remaining_quantity := by
  unfold statusAfterLoop
  split
  · rfl
  · split <;> rfl

theorem statusAfterLoop_tif (o : Order) :
    (statusAfterLoop o).time_in_force = o.time_in_force := by
  unfold statusAfterLoop
  split
  · rfl
  · split <;> rfl

/-- The market matching loop never changes the taker's time in force. -/
theorem marketLoop_tif :
    ∀ (makers : List Order) (now : Int) (ob : OrderBookManager) (order : Order)
      (trades : List TradeExecution) r,
      marketMatchLoop now ob order makers trades = .ok r →
      r.2.1.time_in_force = order.time_in_force := by
  intro makers
  induction makers with
  | nil =>
      intro now ob order trades r h
      simp only [marketMatchLoop, Except.ok.injEq] at h
      rw [← h]
  | cons m rest ih =>
      intro now ob order trades r h
      rw [marketMatchLoop] at h
      by_cases hz : order.remaining_quantity = 0
      · rw [if_pos hz] at h
        simp only [Except.ok.injEq] at h
        rw [← h]
      · rw [if_neg hz] at h
        by_cases hst : is_self_trade order m = true
        · rw [if_pos hst] at h
          cases hh : handle_self_trade ob order m with
          | error e => rw [hh] at h; exact absurd h (by simp)
          | ok p =>
              obtain ⟨t2, ob2⟩ := p
              rw [hh] at h
              dsimp only at h
              rw [ih now ob2 t2 trades r h]
              exact (handle_self_trade_fields hh).2.1
        · rw [if_neg hst] at h
          dsimp only at h
          cases hu : OrderBookManager.update_order_quantity ob m.order_id
              (m.remaining_quantity - min order.remaining_quantity m.remaining_quantity) with
          | error e => rw [hu] at h; exact absurd h (by simp)
          | ok ob2 =>
              rw [hu] at h
              dsimp only at h
              exact ih now ob2
                { order with remaining_quantity :=
                    order.remaining_quantity - min order.remaining_quantity m.remaining_quantity }
                (trades ++ [mkTrade now order m]) r h

theorem aupdate_keys {α : Type} {k : Nat} {v0 : α} (v : α) {l : List (Nat × α)}
    (h : alookup k l = some v0) :
    (aupdate k v l).map Prod.fst = l.map Prod.fst := by
  induction l with
  | nil => simp [alookup] at h
  | cons hd tl ih =>
      obtain ⟨k', v'⟩ := hd
      by_cases hkk : k' = k
      · subst hkk; simp [aupdate]
      · simp only [alookup, if_neg hkk] at h
        simp [aupdate, hkk, ih h]

theorem sideLevels_setOrders (b : OrderBookManager) (os : List (Nat × Order))
    (s : OrderSide) :
    OrderBookManager.sideLevels { b with orders := os } s = b.sideLevels s := by
  cases s <;> rfl

/-- The level index on the removed order's side after `remove_order`. -/
theorem remove_order_levels_self {b : OrderBookManager} {oid : Nat} {o : Order}
    {b' : OrderBookManager}
    (h : OrderBookManager.remove_order b oid = .ok (o, b')) :
    b'.sideLevels o.side =
      OrderBookManager.removeFromLevels (b.sideLevels o.side) o.price
        o.remaining_quantity := by
  unfold OrderBookManager.remove_order at h
  cases hl : alookup oid b.orders with
  | none => rw [hl] at h; exact absurd h (by simp)
  | some o2 =>
      rw [hl] at h
      dsimp only at h
      simp only [Except.ok.injEq, Prod.mk.injEq] at h
      obtain ⟨ho, hb⟩ := h
      subst ho
      rw [← hb]
      cases hs : o2.side <;>
        dsimp only [OrderBookManager.setSideLevels, OrderBookManager.sideLevels]

/-- Full characterization of `updateFillRemove`: it succeeds, erases the
order id from the (status-updated) order index and applies
`removeFromLevels` on the order's side. -/
theorem updateFillRemove_spec (b : OrderBookManager) (oid : Nat) (o : Order) :
    ∃ b', OrderBookManager.updateFillRemove b oid o = .ok b' ∧
      b'.orders =
        aerase oid (aupdate oid { o with status := OrderStatus.Filled } b.orders) ∧
      b'.sideLevels o.side =
        OrderBookManager.removeFromLevels (b.sideLevels o.side) o.price
          o.remaining_quantity := by
  have hlk : alookup oid
      (aupdate oid ({ o with status := OrderStatus.Filled }) b.orders) =
      some { o with status := OrderStatus.Filled } := alookup_aupdate_self _ _ _
  obtain ⟨bD, hrm⟩ := remove_order_ok_of_mem
    (b := { b with orders := aupdate oid { o with status := OrderStatus.Filled } b.orders })
    hlk
  refine ⟨{ bD with sequence_number := bD.sequence_number + 1 }, ?_, ?_, ?_⟩
  · unfold OrderBookManager.updateFillRemove
    dsimp only
    rw [hrm]
  · exact (remove_order_elim hrm).2
  · have h3 := remove_order_levels_self hrm
    rw [sideLevels_setOrders] at h3
    exact h3

/-- `updateFillRemove` always succeeds and returns `fillRemoveResult`. -/
theorem updateFillRemove_eq (b : OrderBookManager) (oid : Nat) (o : Order) :
    OrderBookManager.updateFillRemove b oid o =
      .ok (OrderBookManager.fillRemoveResult b oid o) := by
  unfold OrderBookManager.updateFillRemove OrderBookManager.fillRemoveResult
  dsimp only
  unfold OrderBookManager.remove_order
  rw [show alookup oid (aupdate oid { o with status := OrderStatus.Filled } b.orders) =
        some { o with status := OrderStatus.Filled } from alookup_aupdate_self _ _ _]

/-- The empty trade list satisfies the C6 property vacuously. -/
theorem tradesFaithful_nil (taker : Order) (makers : List Order) :
    tradesFaithful taker makers [] := by
  intro pre t post heq
  exact absurd heq (by simp)

/-- The limit matching loop only appends to the trade accumulator. -/
theorem limitLoop_acc :
    ∀ (makers : List Order) (now : Int) (ob : OrderBookManager) (order : Order)
      (acc : List TradeExecution),
      limitMatchLoop now ob order makers acc =
        (limitMatchLoop now ob order makers []).map
          (fun r => (r.1, r.2.1, acc ++ r.2.2)) := by
  intro makers
  induction makers with
  | nil => intro now ob order acc; simp [limitMatchLoop, Except.map]
  | cons m rest ih =>
      intro now ob order acc
      rw [limitMatchLoop, limitMatchLoop]
      by_cases hz : order.remaining_quantity = 0
      · rw [if_pos hz, if_pos hz]; simp [Except.map]
      · rw [if_neg hz, if_neg hz]
        by_cases hcm : ¬ (canMatch order m = true)
        · rw [if_pos hcm, if_pos hcm]; simp [Except.map]
        · rw [if_neg hcm, if_neg hcm]
          by_cases hst : is_self_trade order m = true
          · rw [if_pos hst, if_pos hst]
            cases hh : handle_self_trade ob order m with
            | error e => simp [Except.map]
            | ok p =>
                obtain ⟨t2, ob2⟩ := p
                dsimp only
                exact ih now ob2 t2 acc
          · rw [if_neg hst, if_neg hst]
            dsimp only
            cases hu : OrderBookManager.update_order_quantity ob m.order_id
                (m.remaining_quantity - min order.remaining_quantity m.remaining_quantity) with
            | error e => simp [Except.map]
            | ok ob2 =>
                dsimp only
                rw [ih now ob2 _ (acc ++ [mkTrade now order m]),
                    ih now ob2 _ ([] ++ [mkTrade now order m])]
                cases hrec : limitMatchLoop now ob2
                    { order with remaining_quantity :=
                        order.remaining_quantity - min order.remaining_quantity m.remaining_quantity }
                    rest [] with
                | error e => simp [Except.map]
                | ok r0 => simp [Except.map]

/-- The market matching loop only appends to the trade accumulator. -/
theorem marketLoop_acc :
    ∀ (makers : List Order) (now : Int) (ob : OrderBookManager) (order : Order)
      (acc : List TradeExecution),
      marketMatchLoop now ob order makers acc =
        (marketMatchLoop now ob order makers []).map
          (fun r => (r.1, r.2.1, acc ++ r.2.2)) := by
  intro makers
  induction makers with
  | nil => intro now ob order acc; simp [marketMatchLoop, Except.map]
  | cons m rest ih =>
      intro now ob order acc
      rw [marketMatchLoop, marketMatchLoop]
      by_cases hz : order.remaining_quantity = 0
      · rw [if_pos hz, if_pos hz]; simp [Except.map]
      · rw [if_neg hz, if_neg hz]
        by_cases hst : is_self_trade order m = true
        · rw [if_pos hst, if_pos hst]
          cases hh : handle_self_trade ob order m with
          | error e => simp [Except.map]
          | ok p =>
              obtain ⟨t2, ob2⟩ := p
              dsimp only
              exact ih now ob2 t2 acc
        · rw [if_neg hst, if_neg hst]
          dsimp only
          cases hu : OrderBookManager.update_order_quantity ob m.order_id
              (m.remaining_quantity - min order.remaining_quantity m.remaining_quantity) with
          | error e => simp [Except.map]
          | ok ob2 =>
              dsimp only
              rw [ih now ob2 _ (acc ++ [mkTrade now order m]),
                  ih now ob2 _ ([] ++ [mkTrade now order m])]
              cases hrec : marketMatchLoop now ob2
                  { order with remaining_quantity :=
                      order.remaining_quantity - min order.remaining_quantity m.remaining_quantity }
                  rest [] with
              | error e => simp [Except.map]
              | ok r0 => simp [Except.map]

/-- Every trade emitted by the limit matching loop prices at its maker
entry and sizes as the min of the remaining quantities at that point. -/
theorem limitLoop_faithful :
    ∀ (makers : List Order) (now : Int) (ob : OrderBookManager) (order : Order) r,
      limitMatchLoop now ob order makers [] = .ok r →
      tradesFaithful order makers r.2.2 := by
  intro makers
  induction makers with
  | nil =>
      intro now ob order r h
      simp only [limitMatchLoop, Except.ok.injEq] at h
      rw [← h]
      exact tradesFaithful_nil _ _
  | cons m rest ih =>
      intro now ob order r h
      rw [limitMatchLoop] at h
      by_cases hz : order.remaining_quantity = 0
      · rw [if_pos hz] at h
        simp only [Except.ok.injEq] at h
        rw [← h]
        exact tradesFaithful_nil _ _
      · rw [if_neg hz] at h
        by_cases hcm : ¬ (canMatch order m = true)
        · rw [if_pos hcm] at h
          simp only [Except.ok.injEq] at h
          rw [← h]
          exact tradesFaithful_nil _ _
        · rw [if_neg hcm] at h
          by_cases hst : is_self_trade order m = true
          · rw [if_pos hst] at h
            cases hh : handle_self_trade ob order m with
            | error e => rw [hh] at h; exact absurd h (by simp)
            | ok p =>
                obtain ⟨t2, ob2⟩ := p
                rw [hh] at h
                dsimp only at h
                have hrem := (handle_self_trade_fields hh).1
                intro pre t post heq
                obtain ⟨m', hm', hid, hms, hp, hq⟩ := ih now ob2 t2 r h pre t post heq
                exact ⟨m', List.mem_cons_of_mem _ hm', hid, hms, hp, by rw [hq, hrem]⟩
          · rw [if_neg hst] at h
            dsimp only at h
            cases hu : OrderBookManager.update_order_quantity ob m.order_id
                (m.remaining_quantity - min order.remaining_quantity m.remaining_quantity) with
            | error e => rw [hu] at h; exact absurd h (by simp)
            | ok ob2 =>
                rw [hu] at h
                dsimp only at h
                rw [limitLoop_acc] at h
                cases hrec : limitMatchLoop now ob2
                    { order with remaining_quantity :=
                        order.remaining_quantity - min order.remaining_quantity m.remaining_quantity }
                    rest [] with
                | error e => rw [hrec] at h; exact absurd h (by simp [Except.map])
                | ok r0 =>
                    rw [hrec] at h
                    simp only [Except.map, Except.ok.injEq] at h
                    have hih := ih now ob2 _ r0 hrec
                    intro pre t post heq
                    rw [← h] at heq
                    dsimp only at heq
                    cases pre with
                    | nil =>
                        simp only [List.nil_append, List.singleton_append,
                          List.cons.injEq] at heq
                        refine ⟨m, List.mem_cons_self _ _, ?_, ?_, ?_, ?_⟩
                        · rw [← heq.1]; rfl
                        · rw [← heq.1]; rfl
                        · rw [← heq.1]; rfl
                        · rw [← heq.1]
                          show min order.remaining_quantity m.remaining_quantity =
                            min (order.remaining_quantity - sumQty []) m.remaining_quantity
                          simp [sumQty]
                    | cons t' pre' =>
                        simp only [List.nil_append, List.cons_append, List.singleton_append,
                          List.cons.injEq, List.append_assoc] at heq
                        obtain ⟨ht', heq2⟩ := heq
                        obtain ⟨m', hm', hid, hms, hp, hq⟩ := hih pre' t post heq2
                        refine ⟨m', List.mem_cons_of_mem _ hm', hid, hms, hp, ?_⟩
                        rw [hq, ← ht']
                        show min ({ order with remaining_quantity :=
                            order.remaining_quantity - min order.remaining_quantity m.remaining_quantity
                          }.remaining_quantity - sumQty pre') m'.remaining_quantity =
                          min (order.remaining_quantity - sumQty (mkTrade now order m :: pre'))
                            m'.remaining_quantity
                        have hsq : sumQty (mkTrade now order m :: pre') =
                            min order.remaining_quantity m.remaining_quantity + sumQty pre' := rfl
                        rw [hsq]
                        dsimp only
                        rw [Nat.sub_sub]

/-- Every trade emitted by the market matching loop prices at its maker
entry and sizes as the min of the remaining quantities at that point. -/
theorem marketLoop_faithful :
    ∀ (makers : List Order) (now : Int) (ob : OrderBookManager) (order : Order) r,
      marketMatchLoop now ob order makers [] = .ok r →
      tradesFaithful order makers r.2.2 := by
  intro makers
  induction makers with
  | nil =>
      intro now ob order r h
      simp only [marketMatchLoop, Except.ok.injEq] at h
      rw [← h]
      exact tradesFaithful_nil _ _
  | cons m rest ih =>
      intro now ob order r h
      rw [marketMatchLoop] at h
      by_cases hz : order.remaining_quantity = 0
      · rw [if_pos hz] at h
        simp only [Except.ok.injEq] at h
        rw [← h]
        exact tradesFaithful_nil _ _
      · rw [if_neg hz] at h
        by_cases hst : is_self_trade order m = true
        · rw [if_pos hst] at h
          cases hh : handle_self_trade ob order m with
          | error e => rw [hh] at h; exact absurd h (by simp)
          | ok p =>
              obtain ⟨t2, ob2⟩ := p
              rw [hh] at h
              dsimp only at h
              have hrem := (handle_self_trade_fields hh).1
              intro pre t post heq
              obtain ⟨m', hm', hid, hms, hp, hq⟩ := ih now ob2 t2 r h pre t post heq
              exact ⟨m', List.mem_cons_of_mem _ hm', hid, hms, hp, by rw [hq, hrem]⟩
        · rw [if_neg hst] at h
          dsimp only at h
          cases hu : OrderBookManager.update_order_quantity ob m.order_id
              (m.remaining_quantity - min order.remaining_quantity m.remaining_quantity) with
          | error e => rw [hu] at h; exact absurd h (by simp)
          | ok ob2 =>
              rw [hu] at h
              dsimp only at h
              rw [marketLoop_acc] at h
              cases hrec : marketMatchLoop now ob2
                  { order with remaining_quantity :=
                      order.remaining_quantity - min order.remaining_quantity m.remaining_quantity }
                  rest [] with
              | error e => rw [hrec] at h; exact absurd h (by simp [Except.map])
              | ok r0 =>
                  rw [hrec] at h
                  simp only [Except.map, Except.ok.injEq] at h
                  have hih := ih now ob2 _ r0 hrec
                  intro pre t post heq
                  rw [← h] at heq
                  dsimp only at heq
                  cases pre with
                  | nil =>
                      simp only [List.nil_append, List.singleton_append,
                        List.cons.injEq] at heq
                      refine ⟨m, List.mem_cons_self _ _, ?_, ?_, ?_, ?_⟩
                      · rw [← heq.1]; rfl
                      · rw [← heq.1]; rfl
                      · rw [← heq.1]; rfl
                      · rw [← heq.1]
                        show min order.remaining_quantity m.remaining_quantity =
                          min (order.remaining_quantity - sumQty []) m.remaining_quantity
                        simp [sumQty]
                  | cons t' pre' =>
                      simp only [List.nil_append, List.cons_append, List.singleton_append,
                        List.cons.injEq, List.append_assoc] at heq
                      obtain ⟨ht', heq2⟩ := heq
                      obtain ⟨m', hm', hid, hms, hp, hq⟩ := hih pre' t post heq2
                      refine ⟨m', List.mem_cons_of_mem _ hm', hid, hms, hp, ?_⟩
                      rw [hq, ← ht']
                      show min ({ order with remaining_quantity :=
                          order.remaining_quantity - min order.remaining_quantity m.remaining_quantity
                        }.remaining_quantity - sumQty pre') m'.remaining_quantity =
                        min (order.remaining_quantity - sumQty (mkTrade now order m :: pre'))
                          m'.remaining_quantity
                      have hsq : sumQty (mkTrade now order m :: pre') =
                          min order.remaining_quantity m.remaining_quantity + sumQty pre' := rfl
                      rw [hsq]
                      dsimp only
                      rw [Nat.sub_sub]

/-- The post-loop step of `execute_limit_order` either forwards the
loop's trades or (FOK failure) discards them. -/
theorem limitPostLoop_trades {ob1 : OrderBookManager} {o1 : Order}
    {tr : List TradeExecution} {r : OrderBookManager × Order × List TradeExecution}
    (h : limitPostLoop ob1 o1 tr = .ok r) : r.2.2 = tr ∨ r.2.2 = [] := by
  unfold limitPostLoop at h
  dsimp only at h
  cases ht : (statusAfterLoop o1).time_in_force <;> rw [ht] at h <;> dsimp only at h
  case GoodTillCancelled =>
    split at h
    · cases ha : OrderBookManager.add_order ob1 (statusAfterLoop o1) with
      | error e => rw [ha] at h; exact absurd h (by simp)
      | ok ob2 =>
          rw [ha] at h
          simp only [Except.ok.injEq] at h
          rw [← h]
          exact Or.inl rfl
    · simp only [Except.ok.injEq] at h
      rw [← h]
      exact Or.inl rfl
  case GoodTillTime =>
    split at h
    · cases ha : OrderBookManager.add_order ob1 (statusAfterLoop o1) with
      | error e => rw [ha] at h; exact absurd h (by simp)
      | ok ob2 =>
          rw [ha] at h
          simp only [Except.ok.injEq] at h
          rw [← h]
          exact Or.inl rfl
    · simp only [Except.ok.injEq] at h
      rw [← h]
      exact Or.inl rfl
  case ImmediateOrCancel =>
    split at h <;> simp only [Except.ok.injEq] at h <;> rw [← h]
    · exact Or.inl rfl
    · exact Or.inl rfl
  case FillOrKill =>
    split at h <;> simp only [Except.ok.injEq] at h <;> rw [← h]
    · exact Or.inr rfl
    · exact Or.inl rfl

/-! ## Sorting lemmas for the recent-trades query -/

theorem insertTradeDesc_perm (t : TradeExecution) (l : List TradeExecution) :
    (insertTradeDesc t l).Perm (t :: l) := by
  induction l with
  | nil => exact List.Perm.refl _
  | cons x xs ih =>
      by_cases h : t.timestamp < x.timestamp
      · rw [insertTradeDesc, if_pos h]
        exact (ih.cons x).trans (List.Perm.swap t x xs)
      · rw [insertTradeDesc, if_neg h]

theorem sortTradesDesc_perm (l : List TradeExecution) :
    (sortTradesDesc l).Perm l := by
  induction l with
  | nil => exact List.Perm.refl _
  | cons x xs ih =>
      rw [sortTradesDesc]
      exact (insertTradeDesc_perm x (sortTradesDesc xs)).trans (ih.cons x)

theorem sortTradesDesc_length (l : List TradeExecution) :
    (sortTradesDesc l).length = l.length :=
  (sortTradesDesc_perm l).length_eq

theorem insertTradeDesc_sorted {l : List TradeExecution} (t : TradeExecution)
    (h : List.Pairwise (fun a b => b.timestamp ≤ a.timestamp) l) :
    List.Pairwise (fun a b => b.timestamp ≤ a.timestamp) (insertTradeDesc t l) := by
  induction l with
  | nil => simp [insertTradeDesc]
  | cons x xs ih =>
      rw [List.pairwise_cons] at h
      by_cases hlt : t.timestamp < x.timestamp
      · rw [insertTradeDesc, if_pos hlt]
        rw [List.pairwise_cons]
        constructor
        · intro y hy
          rcases List.mem_cons.mp ((insertTradeDesc_perm t xs).mem_iff.mp hy) with hy2 | hy2
          · rw [hy2]; omega
          · exact h.1 y hy2
        · exact ih h.2
      · rw [insertTradeDesc, if_neg hlt]
        rw [List.pairwise_cons]
        constructor
        · intro y hy
          rcases List.mem_cons.mp hy with hy2 | hy2
          · rw [hy2]; omega
          · exact le_trans (h.1 y hy2) (by omega)
        · exact List.pairwise_cons.mpr h

theorem sortTradesDesc_sorted (l : List TradeExecution) :
    List.Pairwise (fun a b => b.timestamp ≤ a.timestamp) (sortTradesDesc l) := by
  induction l with
  | nil => simp [sortTradesDesc]
  | cons x xs ih => exact insertTradeDesc_sorted x ih

/-! ## Claim theorems -/

/-- C1: the claim states that a FOK limit order that ends `Cancelled`
leaves no externally visible partial effect — zero trades reference it
and every resting maker is unchanged.  The code discards the trade
records (`return Ok(Vec::new())`) but has already decremented and even
removed the makers it matched during the loop: on `bookAsk100` the FOK
bid for 10 ends `Cancelled` with zero trades, yet maker 1 has been
consumed from the book with no recorded trade. -/
theorem fok_cancel_leaves_partial_fill :
  ((OrderBookManager.new 1 1).add_order makerAsk100 = .ok bookAsk100) ∧
  bookAsk100.get_order 1 = some makerAsk100 ∧
  (place_order cfgC 0 bookAsk100 takerFOK).map
      (fun r => (r.2.2, r.2.1.status, r.1.get_order 1)) =
    .ok ([], .Cancelled, none) := by decide

/-- C2: the claim states that `get_asks_up_to_price` returns resting
asks ordered first by ascending price.  The source re-sorts the whole
accumulated vector by timestamp inside the per-price loop, so a
lower-priced ask with a later timestamp is returned after a
higher-priced earlier one: on `bookTwoAsks` the fetch up to price 20
returns prices `[20, 10]`. -/
theorem asks_fetch_not_price_ordered :
  (((OrderBookManager.new 1 1).add_order askP20T1).bind
      (fun b => b.add_order askP10T2) = .ok bookTwoAsks) ∧
  (bookTwoAsks.get_asks_up_to_price 20).map Order.price = [20, 10] := by decide

/-- C3: the claim states that every order in the book's order-id index
has status `Open` or `PartiallyFilled`, and in particular that a taker
cancelled by self-trade prevention is never rested.  After placing
`makerAsk100` and then the same-owner `CancelTake` bid `takerSelfCT`
through `place_order`, the book contains order 2 with status
`Cancelled`: the GTC resting step adds the already-cancelled taker. -/
theorem stp_cancelled_taker_rests_on_book :
  (placeBookStep cfgC 0
      (placeBookStep cfgC 0 (.ok (OrderBookManager.new 1 1)) makerAsk100)
      takerSelfCT = .ok bookAfterSelfCT) ∧
  (bookAfterSelfCT.get_order 2).map Order.status = some .Cancelled := by decide

/-- C4 counterexample: the claim states that under `DecrementAndCancel`
equal remaining quantities cancel both the taker and the maker.  With
taker and maker both of remaining quantity 5, the code cancels only the
taker: no trade is emitted, the taker ends `Cancelled`, and the maker
stays in the book with status `Open`. -/
theorem dac_equal_quantities_keeps_maker :
  (place_order cfgC 0 bookAsk100 takerSelfDAC).map
      (fun r => (r.2.2, r.2.1.status, (r.1.get_order 1).map Order.status)) =
    .ok ([], .Cancelled, some .Open) := by decide

/-- C5 counterexample: the claim states that a market order with any
unfilled remainder ends `Cancelled` regardless of `time_in_force`.  A
GTC market bid on an empty book keeps status `Open` with its full
remaining quantity (it is not rested either). -/
theorem market_gtc_unfilled_not_cancelled :
  (place_order cfgC 0 (OrderBookManager.new 1 1) marketGTC).map
      (fun r => (r.2.1.status, r.2.1.remaining_quantity, r.1.get_order 1, r.2.2)) =
    .ok (.Open, 5, none, []) := by decide

/-- C7 counterexample: the claim states that `update_order_quantity`
fails with `InvalidQuantity` when the new remaining quantity is ≥ the
previous one.  Updating order 1 (remaining 5) to remaining 5 succeeds:
the source performs no `InvalidQuantity` check at all. -/
theorem update_equal_remaining_not_rejected :
  bookAsk100.update_order_quantity 1 5 ≠ .error .InvalidQuantity ∧
  (bookAsk100.update_order_quantity 1 5).isOk = true := by decide

/-- C9: each of the five wire enums round-trips through its `u8`
discriminant (`try_from (v as u8) = Ok(v)`), and `try_from` rejects a
byte exactly when it lies outside the declared discriminant range
(`0..=1`, `0..=2`, `0..=4`, `0..=3`, `0..=3` respectively). -/
theorem enum_u8_roundtrip :
  (∀ v : OrderSide, OrderSide.tryFromU8 v.toU8 = some v) ∧
  (∀ b : Nat, OrderSide.tryFromU8 b = none ↔ 2 ≤ b) ∧
  (∀ v : OrderType, OrderType.tryFromU8 v.toU8 = some v) ∧
  (∀ b : Nat, OrderType.tryFromU8 b = none ↔ 3 ≤ b) ∧
  (∀ v : OrderStatus, OrderStatus.tryFromU8 v.toU8 = some v) ∧
  (∀ b : Nat, OrderStatus.tryFromU8 b = none ↔ 5 ≤ b) ∧
  (∀ v : SelfTradeBehavior, SelfTradeBehavior.tryFromU8 v.toU8 = some v) ∧
  (∀ b : Nat, SelfTradeBehavior.tryFromU8 b = none ↔ 4 ≤ b) ∧
  (∀ v : TimeInForce, TimeInForce.tryFromU8 v.toU8 = some v) ∧
  (∀ b : Nat, TimeInForce.tryFromU8 b = none ↔ 4 ≤ b) := by
  refine ⟨fun v => by cases v <;> rfl, fun b => ?_,
          fun v => by cases v <;> rfl, fun b => ?_,
          fun v => by cases v <;> rfl, fun b => ?_,
          fun v => by cases v <;> rfl, fun b => ?_,
          fun v => by cases v <;> rfl, fun b => ?_⟩
  · match b with
    | 0 | 1 => decide
    | n + 2 => simp [OrderSide.tryFromU8]
  · match b with
    | 0 | 1 | 2 => decide
    | n + 3 => simp [OrderType.tryFromU8]
  · match b with
    | 0 | 1 | 2 | 3 | 4 => decide
    | n + 5 => simp [OrderStatus.tryFromU8]
  · match b with
    | 0 | 1 | 2 | 3 => decide
    | n + 4 => simp [SelfTradeBehavior.tryFromU8]
  · match b with
    | 0 | 1 | 2 | 3 => decide
    | n + 4 => simp [TimeInForce.tryFromU8]

/-- C7 (amended): `update_order_quantity` fails with `OrderNotFound`
when the id is absent; it performs no `InvalidQuantity` check (the
counterexample shows `new = previous` succeeding).  Under
`new ≤ previous`, on a book whose indexes are consistent at the order's
level (the level holds at least the order's remaining quantity and at
least one order, a single-order level holds exactly that quantity, and
the key lists are duplicate-free), the call succeeds, the level
aggregate is decremented by the delta `previous - new`, and the order
is removed exactly when `new = 0` (otherwise it stays with remaining
quantity `new`). -/
theorem update_order_quantity_spec :
  ∀ (b : OrderBookManager) (oid new : Nat),
    (OrderBookManager.get_order b oid = none →
      OrderBookManager.update_order_quantity b oid new = .error .OrderNotFound) ∧
    (∀ o L, OrderBookManager.get_order b oid = some o →
      alookup o.price (b.sideLevels o.side) = some L →
      new ≤ o.remaining_quantity →
      o.remaining_quantity ≤ L.quantity →
      1 ≤ L.order_count →
      (L.order_count = 1 → L.quantity = o.remaining_quantity) →
      (b.orders.map Prod.fst).Nodup →
      ((b.sideLevels o.side).map Prod.fst).Nodup →
      ∃ b', OrderBookManager.update_order_quantity b oid new = .ok b' ∧
        levelQty b' o.side o.price = L.quantity - (o.remaining_quantity - new) ∧
        (new = 0 → OrderBookManager.get_order b' oid = none) ∧
        (0 < new → ∃ o', OrderBookManager.get_order b' oid = some o' ∧
          o'.remaining_quantity = new)) := by
  intro b oid new
  constructor
  · intro hnone
    have hnone' : alookup oid b.orders = none := hnone
    unfold OrderBookManager.update_order_quantity
    rw [hnone']
  · intro o L ho hL hnew hLq hLc hc1 hndO hndL
    have ho' : alookup oid b.orders = some o := ho
    unfold OrderBookManager.update_order_quantity
    rw [ho']
    dsimp only
    cases hside : o.side <;>
    · rw [hside] at hL hndL
      dsimp only [OrderBookManager.sideLevels] at hL hndL
      dsimp only [OrderBookManager.setSideLevels, OrderBookManager.sideLevels]
      unfold OrderBookManager.updateLevels
      rw [hL]
      dsimp only
      by_cases hz : new = 0
      · subst hz
        simp only [Nat.sub_zero]
        rw [if_pos trivial]
        by_cases hq0 : L.quantity - o.remaining_quantity = 0
        · rw [if_pos hq0, updateFillRemove_eq]
          refine ⟨_, rfl, ?_, ?_, ?_⟩
          · dsimp only [levelQty, OrderBookManager.fillRemoveResult]
            dsimp only [OrderBookManager.setSideLevels, OrderBookManager.sideLevels]
            unfold OrderBookManager.removeFromLevels
            rw [alookup_aerase_self hndL]
            dsimp only
            rw [alookup_aerase_self hndL]
            simp only [Option.map_none', Option.getD_none]
            omega
          · intro _
            dsimp only [OrderBookManager.get_order, OrderBookManager.fillRemoveResult]
            dsimp only [OrderBookManager.setSideLevels, OrderBookManager.sideLevels]
            rw [aupdate_aupdate]
            apply alookup_aerase_self
            rw [aupdate_keys _ ho']
            exact hndO
          · intro hpos
            exact absurd hpos (by simp)
        · rw [if_neg hq0, updateFillRemove_eq]
          have hcne : ¬ (L.order_count - 1 = 0) := by
            intro hcc
            exact hq0 (by have := hc1 (by omega); omega)
          refine ⟨_, rfl, ?_, ?_, ?_⟩
          · dsimp only [levelQty, OrderBookManager.fillRemoveResult]
            dsimp only [OrderBookManager.setSideLevels, OrderBookManager.sideLevels]
            unfold OrderBookManager.removeFromLevels
            rw [alookup_aupdate_self]
            dsimp only
            rw [if_neg hcne]
            rw [aupdate_aupdate, alookup_aupdate_self]
            simp only [Option.map_some', Option.getD_some, Nat.sub_zero]
          · intro _
            dsimp only [OrderBookManager.get_order, OrderBookManager.fillRemoveResult]
            dsimp only [OrderBookManager.setSideLevels, OrderBookManager.sideLevels]
            rw [aupdate_aupdate]
            apply alookup_aerase_self
            rw [aupdate_keys _ ho']
            exact hndO
          · intro hpos
            exact absurd hpos (by simp)
      · rw [if_neg hz]
        have hq1 : ¬ (L.quantity - (o.remaining_quantity - new) = 0) := by omega
        rw [if_neg hq1]
        refine ⟨_, rfl, ?_, ?_, ?_⟩
        · dsimp only [levelQty, OrderBookManager.sideLevels]
          rw [alookup_aupdate_self]
          rfl
        · intro h0
          exact absurd h0 hz
        · intro _
          dsimp only [OrderBookManager.get_order]
          rw [aupdate_aupdate]
          refine ⟨_, alookup_aupdate_self _ _ _, ?_⟩
          split <;> rfl

/-- C7 witness: updating `makerAsk100` (remaining 5, level aggregate 5)
down to remaining 2 succeeds and leaves aggregate 5 - (5 - 2), by the
theorem. -/
theorem update_order_quantity_spec_witness :
    OrderBookManager.update_order_quantity bookAsk100 1 2 = .ok bC7res ∧
    levelQty bC7res OrderSide.Ask 100 = 5 - (5 - 2) := by
  obtain ⟨b', heq, hqty, hnone, hsome⟩ :=
    (update_order_quantity_spec bookAsk100 1 2).2 makerAsk100 ⟨100, 5, 1⟩
      (by decide) (by decide) (by decide) (by decide) (by decide)
      (by decide) (by decide) (by decide)
  have hb : bC7res = b' := by
    unfold bC7res
    rw [heq]
    rfl
  constructor
  · rw [hb]; exact heq
  · rw [hb]; exact hqty

/-- C8: the recent-trades query is the storage query at the effective
limit `min(requested, 1000)` with default 100; its result is sorted
newest first, its length is capped by the effective limit, a request
above 1000 is clamped to 1000, and the underlying sort is a permutation
of the stored trades table. -/
theorem recent_trades_query_spec :
  ∀ (table : List TradeExecution) (limitParam : Option Nat),
    get_trades_handler table limitParam =
      get_recent_trades table (min (limitParam.getD 100) 1000) ∧
    List.Pairwise (fun a b => b.timestamp ≤ a.timestamp)
      (get_trades_handler table limitParam) ∧
    (get_trades_handler table limitParam).length =
      min (min (limitParam.getD 100) 1000) table.length ∧
    get_trades_handler table none = get_recent_trades table 100 ∧
    (∀ k, get_trades_handler table (some (1000 + k)) = get_recent_trades table 1000) ∧
    (sortTradesDesc table).Perm table := by
  intro table limitParam
  refine ⟨rfl, ?_, ?_, ?_, ?_, sortTradesDesc_perm table⟩
  · exact List.Pairwise.sublist (List.take_sublist _ _) (sortTradesDesc_sorted table)
  · show ((sortTradesDesc table).take _).length = _
    rw [List.length_take, sortTradesDesc_length]
  · show get_recent_trades table (min ((Option.getD none 100 : Nat)) 1000) =
      get_recent_trades table 100
    norm_num
  · intro k
    show get_recent_trades table (min (1000 + k) 1000) = get_recent_trades table 1000
    congr 1
    omega

/-- C6: every trade emitted by the limit and the market execution paths
identifies its maker by `maker_order_id` among the fetched resting
entries, and relative to that maker carries the maker's side, prices at
the maker's price, and sizes as `min(taker.remaining, maker.remaining)`
at the moment of the match — the taker's remaining quantity at that
point being its initial remaining minus everything it traded earlier in
the same call. -/
theorem trades_maker_priced :
  ∀ (now : Int) (ob : OrderBookManager) (order : Order)
    (r : OrderBookManager × Order × List TradeExecution),
    (execute_limit_order now ob order = .ok r →
      tradesFaithful order (makersFetchedLimit ob order) r.2.2) ∧
    (execute_market_order now ob order = .ok r →
      tradesFaithful order (makersFetchedMarket ob order) r.2.2) := by
  intro now ob order r
  constructor
  · intro h
    unfold execute_limit_order at h
    dsimp only at h
    unfold makersFetchedLimit
    cases hs : order.side <;> rw [hs] at h <;> dsimp only at h ⊢
    case Bid =>
      cases hm : limitMatchLoop now ob order
          (OrderBookManager.get_asks_up_to_price ob order.price) [] with
      | error e => rw [hm] at h; exact absurd h (by simp)
      | ok p =>
          obtain ⟨ob1, o1, tr⟩ := p
          rw [hm] at h
          dsimp only at h
          have hf := limitLoop_faithful _ now ob order (ob1, o1, tr) hm
          rcases limitPostLoop_trades h with h2 | h2 <;> rw [h2]
          · exact hf
          · exact tradesFaithful_nil _ _
    case Ask =>
      cases hm : limitMatchLoop now ob order
          (OrderBookManager.get_bids_down_to_price ob order.price) [] with
      | error e => rw [hm] at h; exact absurd h (by simp)
      | ok p =>
          obtain ⟨ob1, o1, tr⟩ := p
          rw [hm] at h
          dsimp only at h
          have hf := limitLoop_faithful _ now ob order (ob1, o1, tr) hm
          rcases limitPostLoop_trades h with h2 | h2 <;> rw [h2]
          · exact hf
          · exact tradesFaithful_nil _ _
  · intro h
    unfold execute_market_order at h
    dsimp only at h
    unfold makersFetchedMarket
    cases hs : order.side <;> rw [hs] at h <;> dsimp only at h ⊢
    case Bid =>
      cases hm : marketMatchLoop now ob order
          (OrderBookManager.get_asks_up_to_price ob u64Max) [] with
      | error e => rw [hm] at h; exact absurd h (by simp)
      | ok p =>
          obtain ⟨ob1, o1, tr⟩ := p
          rw [hm] at h
          dsimp only at h
          simp only [Except.ok.injEq] at h
          have hf := marketLoop_faithful _ now ob order (ob1, o1, tr) hm
          rw [← h]
          exact hf
    case Ask =>
      cases hm : marketMatchLoop now ob order
          (OrderBookManager.get_bids_down_to_price ob 0) [] with
      | error e => rw [hm] at h; exact absurd h (by simp)
      | ok p =>
          obtain ⟨ob1, o1, tr⟩ := p
          rw [hm] at h
          dsimp only at h
          simp only [Except.ok.injEq] at h
          have hf := marketLoop_faithful _ now ob order (ob1, o1, tr) hm
          rw [← h]
          exact hf

/-- C6 witness: executing the concrete bid `takerBid3` against
`bookAsk100` emits its trades maker-priced, by the theorem. -/
theorem trades_maker_priced_witness :
  execute_limit_order 0 bookAsk100 takerBid3 = .ok rC6 ∧
  tradesFaithful takerBid3 (makersFetchedLimit bookAsk100 takerBid3) rC6.2.2 :=
  ⟨by decide, (trades_maker_priced 0 bookAsk100 takerBid3 rC6).1 (by decide)⟩

/-- C5 (amended): a market order processed by `place_order` is never
added to the book — every order id present after the call was present
before — and an unfilled remainder is marked `Cancelled` when the
order's time in force is `ImmediateOrCancel` (for other time-in-force
values the status is left untouched by the cancel step, as the
counterexample shows). -/
theorem market_order_never_rests :
  ∀ (cfg : OrderBookConfig) (now : Int) (ob : OrderBookManager) (order : Order) r,
    order.order_type = .Market →
    place_order cfg now ob order = .ok r →
    (∀ k, hasOrder r.1 k = true → hasOrder ob k = true) ∧
    (0 < r.2.1.remaining_quantity → order.time_in_force = .ImmediateOrCancel →
      r.2.1.status = .Cancelled) := by
  intro cfg now ob order r hmk h
  unfold place_order at h
  cases hv : validate_order cfg now order with
  | error e => rw [hv] at h; exact absurd h (by simp)
  | ok u =>
      rw [hv] at h
      dsimp only at h
      rw [hmk] at h
      dsimp only at h
      unfold execute_market_order at h
      dsimp only at h
      cases hm : marketMatchLoop now ob order
          (match order.side with
           | .Bid => OrderBookManager.get_asks_up_to_price ob u64Max
           | .Ask => OrderBookManager.get_bids_down_to_price ob 0) [] with
      | error e => rw [hm] at h; exact absurd h (by simp)
      | ok p =>
          obtain ⟨ob1, o1, tr⟩ := p
          rw [hm] at h
          dsimp only at h
          simp only [Except.ok.injEq] at h
          have htif1 : o1.time_in_force = order.time_in_force :=
            marketLoop_tif _ now ob order [] (ob1, o1, tr) hm
          constructor
          · intro k hk
            rw [← h] at hk
            exact hasOrder_marketLoop_mono _ now ob order [] (ob1, o1, tr) hm k hk
          · intro hpos htif
            rw [← h] at hpos ⊢
            dsimp only at hpos ⊢
            have hta : (statusAfterLoop o1).time_in_force = TimeInForce.ImmediateOrCancel := by
              rw [statusAfterLoop_tif, htif1, htif]
            by_cases hc : 0 < (statusAfterLoop o1).remaining_quantity ∧
                (statusAfterLoop o1).time_in_force = TimeInForce.ImmediateOrCancel
            · rw [if_pos hc]
            · rw [if_neg hc] at hpos
              exact absurd ⟨hpos, hta⟩ hc

/-- C5 witness: a concrete IOC market bid on the empty book ends
`Cancelled` with its full quantity unfilled, by the theorem. -/
theorem market_order_never_rests_witness :
  place_order cfgC 0 (OrderBookManager.new 1 1) marketIOC =
    .ok (OrderBookManager.new 1 1, { marketIOC with status := .Cancelled }, []) ∧
  ({ marketIOC with status := OrderStatus.Cancelled }).status = .Cancelled :=
  ⟨by decide,
   (market_order_never_rests cfgC 0 (OrderBookManager.new 1 1) marketIOC
      (OrderBookManager.new 1 1, { marketIOC with status := .Cancelled }, [])
      rfl (by decide)).2 (by decide) rfl⟩

/-- C4 (amended): under `DecrementAndCancel` self-trade prevention no
trade is emitted for the prevented match (the matching step for a
same-owner maker only runs `handle_self_trade` and recurses with the
trade list unchanged); if the taker's remaining quantity is ≤ the
maker's — including equality — only the taker is set to `Cancelled` and
the book (hence the maker) is untouched; if the maker's remaining
quantity is strictly smaller, the maker alone is removed from the book
and every other order is untouched. -/
theorem dac_self_trade_spec :
  ∀ (now : Int) (ob : OrderBookManager) (taker maker : Order)
    (rest : List Order) (trades : List TradeExecution),
    taker.self_trade_behavior = .DecrementAndCancel →
    (taker.remaining_quantity ≤ maker.remaining_quantity →
      handle_self_trade ob taker maker = .ok ({ taker with status := .Cancelled }, ob)) ∧
    (maker.remaining_quantity < taker.remaining_quantity →
      (ob.orders.map Prod.fst).Nodup →
      ∀ mo, ob.get_order maker.order_id = some mo →
      ∃ ob', handle_self_trade ob taker maker = .ok (taker, ob') ∧
        ob'.get_order maker.order_id = none ∧
        (∀ k, k ≠ maker.order_id → ob'.get_order k = ob.get_order k)) ∧
    (taker.owner = maker.owner → taker.remaining_quantity ≠ 0 →
      canMatch taker maker = true →
      limitMatchLoop now ob taker (maker :: rest) trades =
        (handle_self_trade ob taker maker).bind
          (fun p => limitMatchLoop now p.2 p.1 rest trades)) := by
  intro now ob taker maker rest trades hb
  refine ⟨?_, ?_, ?_⟩
  · intro hle
    simp [handle_self_trade, hb, hle]
  · intro hlt hnd mo hmo
    obtain ⟨b2, hr⟩ := remove_order_ok_of_mem hmo
    refine ⟨b2, ?_, ?_, ?_⟩
    · simp [handle_self_trade, hb, not_le.mpr hlt, hr, Except.map]
    · have h2 := (remove_order_elim hr).2
      show alookup maker.order_id b2.orders = none
      rw [h2]
      exact alookup_aerase_self hnd
    · intro k hk
      have h2 := (remove_order_elim hr).2
      show alookup k b2.orders = alookup k ob.orders
      rw [h2]
      exact alookup_aerase_ne hk _
  · intro hown hrem hcm
    have hst : is_self_trade taker maker = true := by
      simp [is_self_trade, hown]
    simp only [limitMatchLoop, if_neg hrem, hcm, hst]
    simp only [not_true, if_false, if_true]
    cases hh : handle_self_trade ob taker maker with
    | error e => simp [Except.bind]
    | ok p =>
        obtain ⟨t2, ob2⟩ := p
        simp [Except.bind]

/-- C4 witness: on the concrete equal-quantity self-trade of
`takerSelfDAC` against `makerAsk100`, the theorem's first branch gives
the taker-only cancellation with the book untouched. -/
theorem dac_self_trade_spec_witness :
  takerSelfDAC.remaining_quantity ≤ makerAsk100.remaining_quantity ∧
  handle_self_trade bookAsk100 takerSelfDAC makerAsk100 =
    .ok ({ takerSelfDAC with status := .Cancelled }, bookAsk100) :=
  ⟨by decide,
   (dac_self_trade_spec 0 bookAsk100 takerSelfDAC makerAsk100 [] [] rfl).1
     (by decide)⟩

/-- C10: the read-only calls `get_snapshot`, `get_best_bid`,
`get_best_ask` and `get_order` leave the receiver's entire state (both
level maps, the order index and `sequence_number`) unchanged, and the
snapshot reports the current `sequence_number` without bumping it. -/
theorem readonly_ops_frame :
  ∀ (b : OrderBookManager) (now : Int) (order_id : Nat),
    (get_snapshot_call b now).2 = b ∧
    ((get_snapshot_call b now).1).sequence_number = b.sequence_number ∧
    (get_best_bid_call b).2 = b ∧
    (get_best_ask_call b).2 = b ∧
    (get_order_call b order_id).2 = b :=
  fun _ _ _ => ⟨rfl, rfl, rfl, rfl, rfl⟩

end Clob
